import Mathlib

/-!
Verification of the chunked voxel-grid loader.

Shallow embedding of the client-side loader pipeline:
* the merge step of `loadVoxelGrid` (src/pages/SurfaceNets/index.tsx, lines 161-190),
* the chunk fetch worker's 202 retry loop and min/max pass (chunkLoader worker),
* the `DataSource` orchestration (`loadData`, `loadDataFromBackend`,
  `checkAllChunksCached`, idle writeback) with its two caches,
* the performance-session merge of backend records.

Float64 sample values are modelled as `Int`: every operation the embedded code
performs on sample values is a comparison or a copy, so any linear order with
decidable comparison is a faithful carrier.  JavaScript `undefined` (for the
min/max of an empty chunk) is modelled as `Option.none`.
-/

/-- Chunk result as assembled on the main thread (`ChunkResult` in dataSource.ts):
`{ chunkIndex, buffer, min, max, fromCache }`.  The buffer is the decoded f64
sequence. -/
structure ChunkResult where
  chunkIndex : Nat
  buffer : List Int
  min : Int
  max : Int
  fromCache : Bool
deriving DecidableEq, Repr

/-- Element count of the merged buffer:
`chunkResults.reduce((sum, r) => sum + r.buffer.byteLength / 8, 0)`
(index.tsx line 165). -/
def totalLength (rs : List ChunkResult) : Nat :=
  rs.foldl (fun s r => s + r.buffer.length) 0

/-- The merged buffer: each chunk's elements are copied at the running offset
(`mergedData.set(chunkArray, offset); offset += chunkArray.length`,
index.tsx lines 176-179), i.e. the buffers are concatenated in list order. -/
def mergedData (rs : List ChunkResult) : List Int :=
  rs.foldl (fun acc r => acc ++ r.buffer) []

/-- Global minimum seed and pass (index.tsx lines 170, 182):
`let globalMin = chunkResults[0]?.min ?? 0` then
`if (result.min < globalMin) globalMin = result.min` over all results. -/
def globalMinOf (rs : List ChunkResult) : Int :=
  let seed := match rs.head? with
    | some r => r.min
    | none => 0
  rs.foldl (fun g r => if r.min < g then r.min else g) seed

/-- Global maximum seed and pass (index.tsx lines 171, 183). -/
def globalMaxOf (rs : List ChunkResult) : Int :=
  let seed := match rs.head? with
    | some r => r.max
    | none => 0
  rs.foldl (fun g r => if r.max > g then r.max else g) seed

/-- The sort `chunkResults.sort((a, b) => a.chunkIndex - b.chunkIndex)`
(dataSource.ts line 471): a stable sort by ascending `chunkIndex`. -/
def sortByChunkIndex (rs : List ChunkResult) : List ChunkResult :=
  rs.mergeSort (fun a b => a.chunkIndex ≤ b.chunkIndex)

/-- The whole merge step of `loadVoxelGrid` (index.tsx lines 161-190): the merged
buffer plus the global min/max.  The step is a total function of the chunk
results: the source performs no integrity check against `dataLength`. -/
def mergeStep (rs : List ChunkResult) : List Int × Int × Int :=
  (mergedData rs, globalMinOf rs, globalMaxOf rs)

/-- Chunk descriptor `{index, start, end}` from the preprocess response.
`end` is a Lean keyword, so the field is called `stop`. -/
structure ChunkDescr where
  index : Nat
  start : Nat
  stop : Nat
deriving DecidableEq, Repr

/-- The chunk list `ds` starts at chunk index `i` and element offset `pos` and
partitions `[pos, dataLength)` into non-empty half-open slices with consecutive
indexes: the shape of the `chunks[]` array produced by the preprocess service. -/
def layoutFrom : List ChunkDescr → Nat → Nat → Nat → Bool
  | [], _, pos, dataLength => pos == dataLength
  | d :: rest, i, pos, dataLength =>
    (d.index == i) && (d.start == pos) && (pos < d.stop) && (d.stop ≤ dataLength) &&
      layoutFrom rest (i + 1) d.stop dataLength

/-- Layout check for a whole chunk list: the descriptors partition
`[0, dataLength)` with indexes ascending from 0. -/
def isChunkLayout (ds : List ChunkDescr) (dataLength : Nat) : Bool :=
  layoutFrom ds 0 0 dataLength

/-- HTTP statuses distinguished by the worker's retry loop. -/
inductive HttpStatus where
  | ok200
  | accepted202
  | other (code : Nat)
deriving DecidableEq, Repr

/-- Errors thrown inside the worker's fetch loop.  `notReadyAfterRetries ci n`
stands for the thrown message "chunk ci not ready after n retries";
`httpError c` for the generic non-200/202 status error. -/
inductive FetchError where
  | notReadyAfterRetries (chunkIndex : Nat) (retries : Nat)
  | httpError (code : Nat)
deriving DecidableEq, Repr

/-- Worker constant `maxRetries = 10`. -/
def maxRetries : Nat := 10

/-- Worker constant `baseDelay = 100` (milliseconds). -/
def baseDelay : Nat := 100

/-- The worker's retry loop (chunkLoader worker, lines 75-106), driven by the
list of successive HTTP statuses the server returns.  The accumulator `delays`
records every `setTimeout` sleep in order; `retryCount` starts at 0.
On 202: if `retryCount >= maxRetries` the loop throws the not-ready error,
otherwise it sleeps `baseDelay * 2 ^ retryCount` and retries with
`retryCount + 1`.  On any other status it throws.  `none` is returned only when
the status list runs out (a fetch that never returns; unreachable in claims). -/
def fetchRetryLoop (chunkIndex : Nat) :
    List HttpStatus → Nat → List Nat → Option (List Nat × Except FetchError Unit)
  | [], _, _ => none
  | HttpStatus.ok200 :: _, _, delays => some (delays, Except.ok ())
  | HttpStatus.accepted202 :: rest, retryCount, delays =>
    if maxRetries ≤ retryCount then
      some (delays, Except.error (FetchError.notReadyAfterRetries chunkIndex maxRetries))
    else
      fetchRetryLoop chunkIndex rest (retryCount + 1) (delays ++ [baseDelay * 2 ^ retryCount])
  | HttpStatus.other c :: _, _, delays => some (delays, Except.error (FetchError.httpError c))

/-- The single min pass over the decoded body (worker lines 120-125):
`let min = data[0]` then `if (data[i] < min) min = data[i]` for `i ≥ 1`.
For an empty body `data[0]` is `undefined` and no comparison ever replaces it,
modelled as `none`. -/
def jsMinPass (data : List Int) : Option Int :=
  match data with
  | [] => none
  | x :: rest => some (rest.foldl (fun m v => if v < m then v else m) x)

/-- The single max pass over the decoded body (worker lines 120-125). -/
def jsMaxPass (data : List Int) : Option Int :=
  match data with
  | [] => none
  | x :: rest => some (rest.foldl (fun m v => if v > m then v else m) x)

/-- Message the worker posts back: either a `chunk` message (with possibly
undefined min/max) or an `error` message. -/
inductive WorkerReply where
  | chunkMsg (chunkIndex : Nat) (start length : Nat) (buffer : List Int)
      (minVal maxVal : Option Int)
  | errorMsg (chunkIndex : Nat) (e : FetchError)
deriving DecidableEq, Repr

/-- Discriminator: is the posted message an `error` message? -/
def WorkerReply.isError : WorkerReply → Bool
  | WorkerReply.errorMsg _ _ => true
  | WorkerReply.chunkMsg _ _ _ _ _ _ => false

/-- What the worker posts after a 200 body arrives (worker lines 117-149): it
computes the min/max pass and posts a `chunk` message unconditionally: the
source has no emptiness check between decoding and `postMessage`. -/
def workerSuccessReply (chunkIndex start length : Nat) (data : List Int) : WorkerReply :=
  WorkerReply.chunkMsg chunkIndex start length data (jsMinPass data) (jsMaxPass data)

/-- Deterministic model of `Promise.all` over already-settled outcomes listed in
observation order: the result is the list of values, or the first error. -/
def promiseAll {ε α : Type} : List (Except ε α) → Except ε (List α)
  | [] => Except.ok []
  | Except.ok a :: rest => (promiseAll rest).map (fun l => a :: l)
  | Except.error e :: _ => Except.error e

/-- First error among the settled outcomes, if any. -/
def firstError {ε α : Type} : List (Except ε α) → Option ε
  | [] => none
  | Except.ok _ :: rest => firstError rest
  | Except.error e :: _ => some e

/-- Tail of `loadDataFromBackend` (dataSource.ts lines 316-325):
`const results = await Promise.all(chunkPromises);` followed by
`chunkLoaders.forEach((w) => w.terminate());`.  A rejection of `Promise.all`
propagates out of the `await`, so the `forEach` only runs on the success path.
Returns (result, workers spawned, workers terminated). -/
def loadBackendFinish {ε : Type} (spawnedWorkers : Nat)
    (ps : List (Except ε ChunkResult)) : Except ε (List ChunkResult) × Nat × Nat :=
  match promiseAll ps with
  | Except.ok rs => (Except.ok rs, spawnedWorkers, spawnedWorkers)
  | Except.error e => (Except.error e, spawnedWorkers, 0)

/-- Descriptors of the C1 witness load: `[0, 2)` and `[2, 3)` over 3 elements. -/
def dsW : List ChunkDescr := [⟨0, 0, 2⟩, ⟨1, 2, 3⟩]

/-- Chunk contents of the C1 witness load (the parser output `[10, 20, 30]`
sliced per descriptor). -/
def contentsW : ChunkDescr → List Int := fun d => if d.index = 0 then [10, 20] else [30]

/-- Delivered results of the C1 witness load in index order. -/
def csW : List ChunkResult := [⟨0, [10, 20], 10, 20, false⟩, ⟨1, [30], 30, 30, false⟩]

/-- Arrival order of the C1 witness load (chunk 1 arrives first). -/
def rsW : List ChunkResult := [⟨1, [30], 30, 30, false⟩, ⟨0, [10, 20], 10, 20, false⟩]

/-- The fixed worker-count ceiling (`THREAD_COUNT = 5` in dataSource.ts). -/
def THREAD_COUNT : Nat := 5

/-- State of the assignment loop: the number of spawned lane workers
(`chunkLoaders.length`) and, for every cache miss, the pair (position of the
chunk in the `chunks` array, lane index used for it). -/
structure AssignState where
  loaders : Nat
  assignments : List (Nat × Nat)
deriving DecidableEq, Repr

/-- The `for (let i = 0; ...)` loop over the cache query results: a cached chunk
is skipped; a miss computes `workerIndex = i % activeWorkerCount`, pushes a new
worker when `chunkLoaders.length <= workerIndex`, and posts the request on lane
`workerIndex`.  `cached` is the per-position hit/miss list, `i` the loop
counter. -/
def assignLoop (activeWorkerCount : Nat) : List Bool → Nat → AssignState → AssignState
  | [], _, s => s
  | cached :: rest, i, s =>
    if cached then
      assignLoop activeWorkerCount rest (i + 1) s
    else
      let wi := i % activeWorkerCount
      let loaders := if s.loaders ≤ wi then s.loaders + 1 else s.loaders
      assignLoop activeWorkerCount rest (i + 1) ⟨loaders, s.assignments ++ [(i, wi)]⟩

/-- Lane assignment of a whole load: `activeWorkerCount` is
`Math.min(THREAD_COUNT, chunks.length)` (dataSource.ts line 167). -/
def assignWorkers (cached : List Bool) : AssignState :=
  assignLoop (min THREAD_COUNT cached.length) cached 0 ⟨0, []⟩

/-- Modelled from the claim's words, for comparison with `assignWorkers`: the
m-th miss (counting misses seen so far) is assigned lane
`m % min(THREAD_COUNT, chunks.length)`. -/
def missesAssignFrom (awc : Nat) : List Bool → Nat → Nat → List (Nat × Nat)
  | [], _, _ => []
  | cached :: rest, i, m =>
    if cached then missesAssignFrom awc rest (i + 1) m
    else (i, m % awc) :: missesAssignFrom awc rest (i + 1) (m + 1)

/-- Claim-side assignment list: lane = misses seen so far mod
`min(THREAD_COUNT, chunks.length)`. -/
def missesBasedAssignments (cached : List Bool) : List (Nat × Nat) :=
  missesAssignFrom (min THREAD_COUNT cached.length) cached 0 0

/-- Code-side assignment list in closed form: lane = position of the chunk in
the `chunks` array mod `min(THREAD_COUNT, chunks.length)`. -/
def positionAssignFrom (awc : Nat) : List Bool → Nat → List (Nat × Nat)
  | [], _ => []
  | cached :: rest, i =>
    if cached then positionAssignFrom awc rest (i + 1)
    else (i, i % awc) :: positionAssignFrom awc rest (i + 1)

/-- One performance record (`PerformanceRecord` in common/performance/types). -/
structure PerfRecord where
  startTime : Int
  endTime : Int
  channelGroup : String
  channelIndex : Int
  msg : String
deriving DecidableEq, Repr

/-- Session envelope (`PerformanceSession`). -/
structure PerfSession where
  sessionId : String
  sessionStartTime : Int
  sessionEndTime : Int
  records : List PerfRecord
deriving DecidableEq, Repr

/-- JavaScript `Math.min(...list)` on a non-empty integer list.  The empty case
(`Math.min()` is `+Infinity`, unrepresentable in `Int`) is given an arbitrary
default; every claim below only evaluates it on non-empty lists. -/
def jsMinList : List Int → Int
  | [] => 0
  | t :: ts => ts.foldl min t

/-- JavaScript `Math.max(...list)` on a non-empty integer list. -/
def jsMaxList : List Int → Int
  | [] => 0
  | t :: ts => ts.foldl max t

/-- The `allTimes` array of the merge handler:
`records.flatMap(r => [r.startTime, r.endTime])`. -/
def allTimes (records : List PerfRecord) : List Int :=
  records.flatMap (fun r => [r.startTime, r.endTime])

/-- Merging backend records into the local session (index.tsx lines 432-438):
`session.records = [...session.records, ...backendRecords]` followed by
recomputing `sessionStartTime`/`sessionEndTime` as `Math.min`/`Math.max` over
the flattened start/end times. -/
def mergeBackendRecords (session : PerfSession) (backendRecords : List PerfRecord) :
    PerfSession :=
  let records := session.records ++ backendRecords
  { session with
    records := records
    sessionStartTime := jsMinList (allTimes records)
    sessionEndTime := jsMaxList (allTimes records) }

/-- Local session of the C9 witness. -/
def sessionW : PerfSession :=
  ⟨"s1", 10, 20, [⟨10, 20, "network", 0, "load"⟩]⟩

/-- Backend records of the C9 witness. -/
def backendRecordsW : List PerfRecord :=
  [⟨5, 12, "compute", 1, "parse"⟩, ⟨15, 30, "network", 2, "chunk"⟩]

/-- Shape-layout record cached in `localStorage`
(`saveShapeToCache`/`getShapeFromCache`): `{shape, chunks, dataLength}`. -/
structure ShapeLayout where
  shape : Nat × Nat × Nat
  chunks : List ChunkDescr
  dataLength : Nat
deriving DecidableEq, Repr

/-- Byte-cache record (`ChunkCache` in indexedDB.ts):
`{buffer, min, max, timestamp}`. -/
structure CachedChunk where
  buffer : List Int
  min : Int
  max : Int
  timestamp : Int
deriving DecidableEq, Repr

/-- Client-side persistent state: the `localStorage` shape cache keyed by
(file, chunkSize) and the IndexedDB byte cache keyed by
(file, chunkSize, chunkIndex). -/
structure ClientState where
  shapeCache : String → Nat → Option ShapeLayout
  byteCache : String → Nat → Nat → Option CachedChunk

/-- Network requests the client can issue during a load. -/
inductive NetEvent where
  | preprocessPost (file : String) (chunkSize : Nat)
  | chunkGet (taskId : String) (chunkIndex : Nat)
deriving DecidableEq, Repr

/-- Ways a chunk promise can reject inside `loadDataFromBackend`:
`undefinedWorker` is the TypeError raised when `chunkLoaders[workerIndex]` does
not exist (a lane that was skipped because earlier chunks were cache hits);
`workerError` is an `error` message posted by a lane worker. -/
inductive ChunkFault where
  | undefinedWorker (position lane : Nat)
  | workerError (chunkIndex : Nat) (e : FetchError)
deriving DecidableEq, Repr

/-- Ways `loadData` can reject. -/
inductive LoadFailure where
  | cacheMissing (chunkIndex : Nat)
  | chunkFailed (f : ChunkFault)
deriving DecidableEq, Repr

/-- Deterministic server/worker model: the preprocess layout and the lane
worker's decoded outcome (buffer, min, max) per (file, chunkSize, chunkIndex).
Universally quantifying over this structure covers every fixed server
behaviour, including per-chunk worker errors. -/
structure Server where
  taskId : String → Nat → String
  layout : String → Nat → ShapeLayout
  chunkData : String → Nat → Nat → Except FetchError (List Int × Int × Int)

/-- Everything `loadData` produces: the resolved `DataLoadResult` fields, plus
the network events issued, the client state after the synchronous part, and the
idle-writeback work it scheduled (pairs of chunk index and cache record). -/
structure LoadOutcome where
  chunks : List ChunkResult
  shape : Nat × Nat × Nat
  dataLength : Nat
  taskId : Option String
  allFromCache : Bool
  events : List NetEvent
  finalState : ClientState
  writeback : List (Nat × CachedChunk)

/-- The all-cached check (dataSource.ts lines 81-99): every chunk's byte-cache
lookup is non-null. -/
def checkAllChunksCached (st : ClientState) (file : String) (cs : Nat)
    (ds : List ChunkDescr) : Bool :=
  ds.all (fun d => (st.byteCache file cs d.index).isSome)

/-- Loading every chunk from the byte cache (dataSource.ts lines 105-150);
a missing entry throws ("Chunk i cache does not exist"). -/
def loadChunksFromCacheM (st : ClientState) (file : String) (cs : Nat) :
    List ChunkDescr → Except LoadFailure (List ChunkResult)
  | [] => Except.ok []
  | d :: rest =>
    match st.byteCache file cs d.index with
    | some c => (loadChunksFromCacheM st file cs rest).map
        (fun l => ⟨d.index, c.buffer, c.min, c.max, true⟩ :: l)
    | none => Except.error (LoadFailure.cacheMissing d.index)

/-- Writing the layout to the shape cache (`saveShapeToCache`). -/
def saveShapeToCacheM (st : ClientState) (file : String) (cs : Nat) (l : ShapeLayout) :
    ClientState :=
  { st with shapeCache := fun f c => if f = file ∧ c = cs then some l else st.shapeCache f c }

/-- Accumulator of the fan-out loop of `loadDataFromBackend`: worker count,
per-chunk promise outcomes in loop order, and chunk GETs issued. -/
structure FetchAcc where
  loaders : Nat
  promises : List (Except ChunkFault ChunkResult)
  events : List NetEvent

/-- The fan-out loop of `loadDataFromBackend` (dataSource.ts lines 202-309):
cache hits become immediately-resolved promises; misses compute
`workerIndex = i % activeWorkerCount`, push a new worker when
`chunkLoaders.length <= workerIndex`, and post the request — unless
`chunkLoaders[workerIndex]` does not exist, in which case the promise executor
throws and the promise rejects without any GET being issued. -/
def backendFetchLoop (srv : Server) (st : ClientState) (file : String) (cs : Nat)
    (tid : String) (awc : Nat) : List ChunkDescr → Nat → FetchAcc → FetchAcc
  | [], _, acc => acc
  | d :: rest, i, acc =>
    match st.byteCache file cs d.index with
    | some c =>
      backendFetchLoop srv st file cs tid awc rest (i + 1)
        { acc with promises :=
            acc.promises ++ [Except.ok ⟨d.index, c.buffer, c.min, c.max, true⟩] }
    | none =>
      let wi := i % awc
      let loaders := if acc.loaders ≤ wi then acc.loaders + 1 else acc.loaders
      if wi < loaders then
        match srv.chunkData file cs d.index with
        | Except.ok bmm =>
          backendFetchLoop srv st file cs tid awc rest (i + 1)
            ⟨loaders, acc.promises ++ [Except.ok ⟨d.index, bmm.1, bmm.2.1, bmm.2.2, false⟩],
              acc.events ++ [NetEvent.chunkGet tid d.index]⟩
        | Except.error e =>
          backendFetchLoop srv st file cs tid awc rest (i + 1)
            ⟨loaders, acc.promises ++ [Except.error (ChunkFault.workerError d.index e)],
              acc.events ++ [NetEvent.chunkGet tid d.index]⟩
      else
        backendFetchLoop srv st file cs tid awc rest (i + 1)
          ⟨loaders, acc.promises ++ [Except.error (ChunkFault.undefinedWorker i wi)],
            acc.events⟩

/-- Common tail of `loadData` (dataSource.ts lines 467-541): sort the results by
`chunkIndex`, schedule the idle writeback for every result that did not come
from the cache (with a copy of the buffer), and assemble the returned record. -/
def finishLoad (chunkResults : List ChunkResult) (shape : Nat × Nat × Nat) (dl : Nat)
    (tid : Option String) (allCached : Bool) (events : List NetEvent) (st : ClientState) :
    LoadOutcome :=
  let sorted := sortByChunkIndex chunkResults
  { chunks := sorted
    shape := shape
    dataLength := dl
    taskId := tid
    allFromCache := allCached
    events := events
    finalState := st
    writeback := (sorted.filter (fun r => !r.fromCache)).map
      (fun r => (r.chunkIndex, ⟨r.buffer, r.min, r.max, 0⟩)) }

/-- The network path of `loadData` (preprocess POST, shape-cache write, fan-out,
`Promise.all`): dataSource.ts lines 387-465 plus `loadDataFromBackend`. -/
def loadBackendPath (srv : Server) (st : ClientState) (file : String) (cs : Nat) :
    Except LoadFailure LoadOutcome :=
  let l := srv.layout file cs
  let tid := srv.taskId file cs
  let st1 := saveShapeToCacheM st file cs l
  let acc := backendFetchLoop srv st file cs tid (min THREAD_COUNT l.chunks.length)
    l.chunks 0 ⟨0, [], []⟩
  match promiseAll acc.promises with
  | Except.ok rs =>
    Except.ok (finishLoad rs l.shape l.dataLength (some tid) false
      (NetEvent.preprocessPost file cs :: acc.events) st1)
  | Except.error f => Except.error (LoadFailure.chunkFailed f)

/-- The main `loadData` (dataSource.ts lines 331-541): shape-cache lookup, the
all-cached short-circuit, otherwise the network path. -/
def loadDataM (srv : Server) (st : ClientState) (file : String) (cs : Nat) :
    Except LoadFailure LoadOutcome :=
  match st.shapeCache file cs with
  | some cachedShape =>
    if checkAllChunksCached st file cs cachedShape.chunks then
      (loadChunksFromCacheM st file cs cachedShape.chunks).map
        (fun rs => finishLoad rs cachedShape.shape cachedShape.dataLength none true [] st)
    else loadBackendPath srv st file cs
  | none => loadBackendPath srv st file cs

/-- Running the scheduled idle writeback: each entry is `saveChunk`ed under
(file, chunkSize, chunkIndex). -/
def applyWriteback (st : ClientState) (file : String) (cs : Nat)
    (wb : List (Nat × CachedChunk)) : ClientState :=
  wb.foldl (fun s p =>
    { s with byteCache := fun f c i =>
        if f = file ∧ c = cs ∧ i = p.1 then some p.2 else s.byteCache f c i }) st

/-- Server of the C4 witness: a 2-element field in two chunks, always
fulfilling. -/
def srvW : Server :=
  { taskId := fun _ _ => "t1"
    layout := fun _ _ => ⟨(2, 1, 1), [⟨0, 0, 1⟩, ⟨1, 1, 2⟩], 2⟩
    chunkData := fun _ _ i => Except.ok ([(i : Int)], 0, 0) }

/-- Initial client state of the C4 witness: both caches empty. -/
def stW : ClientState := ⟨fun _ _ => none, fun _ _ _ => none⟩

/-- Outcome of the C4 witness's first call (the fallback arm is unreachable). -/
def o1W : LoadOutcome :=
  match loadDataM srvW stW "f" 4 with
  | Except.ok o => o
  | Except.error _ => finishLoad [] (0, 0, 0) 0 none true [] stW

/-! ### Theorems -/

/-- Helper: the merged buffer is the concatenation of the buffers. -/
theorem mergedData_eq_flatten (rs : List ChunkResult) :
    mergedData rs = (rs.map (fun r => r.buffer)).flatten := by
  suffices h : ∀ acc : List Int,
      rs.foldl (fun a r => a ++ r.buffer) acc = acc ++ (rs.map (fun r => r.buffer)).flatten by
    simpa [mergedData] using h []
  induction rs with
  | nil => intro acc; simp
  | cons r rest ih =>
    intro acc
    simp [List.foldl_cons, ih, List.append_assoc]

/-- Helper: `totalLength` is the sum of the buffer lengths. -/
theorem totalLength_eq_length_mergedData (rs : List ChunkResult) :
    totalLength rs = (mergedData rs).length := by
  suffices h : ∀ n : Nat,
      rs.foldl (fun s r => s + r.buffer.length) n =
        n + ((rs.map (fun r => r.buffer)).flatten).length by
    simp [totalLength, mergedData_eq_flatten, h 0]
  induction rs with
  | nil => intro n; simp
  | cons r rest ih =>
    intro n
    simp [List.foldl_cons, ih, Nat.add_assoc]

/-- Helper: the comparison-fold computing the running minimum yields either the
seed or a list element, never exceeds the seed, and bounds every element. -/
theorem foldl_min_spec (l : List Int) : ∀ seed : Int,
    (l.foldl (fun g x => if x < g then x else g) seed = seed ∨
      l.foldl (fun g x => if x < g then x else g) seed ∈ l) ∧
    l.foldl (fun g x => if x < g then x else g) seed ≤ seed ∧
    ∀ x ∈ l, l.foldl (fun g x => if x < g then x else g) seed ≤ x := by
  induction l with
  | nil => intro seed; simp
  | cons y rest ih =>
    intro seed
    simp only [List.foldl_cons]
    rcases ih (if y < seed then y else seed) with ⟨hmem, hle, hbound⟩
    refine ⟨?_, ?_, ?_⟩
    · rcases hmem with h | h
      · by_cases hy : y < seed
        · right; rw [h, if_pos hy]; exact List.mem_cons_self _ _
        · left; rw [h, if_neg hy]
      · right; exact List.mem_cons_of_mem _ h
    · refine le_trans hle ?_
      by_cases hy : y < seed
      · rw [if_pos hy]; exact le_of_lt hy
      · rw [if_neg hy]
    · intro x hx
      rcases List.mem_cons.mp hx with rfl | hx
      · refine le_trans hle ?_
        by_cases hy : x < seed
        · rw [if_pos hy]
        · rw [if_neg hy]; exact le_of_not_lt hy
      · exact hbound x hx

/-- Helper: the comparison-fold computing the running maximum. -/
theorem foldl_max_spec (l : List Int) : ∀ seed : Int,
    (l.foldl (fun g x => if x > g then x else g) seed = seed ∨
      l.foldl (fun g x => if x > g then x else g) seed ∈ l) ∧
    seed ≤ l.foldl (fun g x => if x > g then x else g) seed ∧
    ∀ x ∈ l, x ≤ l.foldl (fun g x => if x > g then x else g) seed := by
  induction l with
  | nil => intro seed; simp
  | cons y rest ih =>
    intro seed
    simp only [List.foldl_cons]
    rcases ih (if y > seed then y else seed) with ⟨hmem, hle, hbound⟩
    refine ⟨?_, ?_, ?_⟩
    · rcases hmem with h | h
      · by_cases hy : y > seed
        · right; rw [h, if_pos hy]; exact List.mem_cons_self _ _
        · left; rw [h, if_neg hy]
      · right; exact List.mem_cons_of_mem _ h
    · refine le_trans ?_ hle
      by_cases hy : y > seed
      · rw [if_pos hy]; exact le_of_lt hy
      · rw [if_neg hy]
    · intro x hx
      rcases List.mem_cons.mp hx with rfl | hx
      · refine le_trans ?_ hle
        by_cases hy : x > seed
        · rw [if_pos hy]
        · rw [if_neg hy]; exact le_of_not_lt hy
      · exact hbound x hx

/-- Helper: `globalMinOf` as a fold over the per-chunk minima. -/
theorem globalMinOf_eq_foldl_map (rs : List ChunkResult) (r0 : ChunkResult)
    (h : rs.head? = some r0) :
    globalMinOf rs = (rs.map ChunkResult.min).foldl (fun g x => if x < g then x else g) r0.min := by
  simp [globalMinOf, h, List.foldl_map]

/-- Helper: `globalMaxOf` as a fold over the per-chunk maxima. -/
theorem globalMaxOf_eq_foldl_map (rs : List ChunkResult) (r0 : ChunkResult)
    (h : rs.head? = some r0) :
    globalMaxOf rs = (rs.map ChunkResult.max).foldl (fun g x => if x > g then x else g) r0.max := by
  simp [globalMaxOf, h, List.foldl_map]

/-- C2. For every non-empty list of chunk results, the global minimum computed by
the merge step equals the minimum over all chunks of the per-chunk `min`
(it is one of the per-chunk minima and a lower bound on all of them), and the
global maximum equals the maximum over all chunks of the per-chunk `max`. -/
theorem globalMin_globalMax_are_extrema (rs : List ChunkResult) (h : rs ≠ []) :
    (globalMinOf rs ∈ rs.map ChunkResult.min ∧ ∀ r ∈ rs, globalMinOf rs ≤ r.min) ∧
    (globalMaxOf rs ∈ rs.map ChunkResult.max ∧ ∀ r ∈ rs, r.max ≤ globalMaxOf rs) := by
  rcases List.exists_cons_of_ne_nil h with ⟨r0, rest, rfl⟩
  have hh : (r0 :: rest).head? = some r0 := rfl
  rcases foldl_min_spec ((r0 :: rest).map ChunkResult.min) r0.min with ⟨hmem, hle, hbound⟩
  rcases foldl_max_spec ((r0 :: rest).map ChunkResult.max) r0.max with ⟨hmem', hle', hbound'⟩
  rw [globalMinOf_eq_foldl_map _ r0 hh, globalMaxOf_eq_foldl_map _ r0 hh]
  refine ⟨⟨?_, ?_⟩, ?_, ?_⟩
  · rcases hmem with hs | hs
    · rw [hs]; exact List.mem_map_of_mem _ (List.mem_cons_self _ _)
    · exact hs
  · intro r hr
    exact hbound r.min (List.mem_map_of_mem _ hr)
  · rcases hmem' with hs | hs
    · rw [hs]; exact List.mem_map_of_mem _ (List.mem_cons_self _ _)
    · exact hs
  · intro r hr
    exact hbound' r.max (List.mem_map_of_mem _ hr)

/-- Witness for C2 at a concrete two-chunk input. -/
theorem globalMin_globalMax_are_extrema_witness :
    ([⟨0, [1, 2], 1, 2, false⟩, ⟨1, [0, 5], 0, 5, false⟩] : List ChunkResult) ≠ [] ∧
    ((globalMinOf [⟨0, [1, 2], 1, 2, false⟩, ⟨1, [0, 5], 0, 5, false⟩] ∈
        ([⟨0, [1, 2], 1, 2, false⟩, ⟨1, [0, 5], 0, 5, false⟩] : List ChunkResult).map
          ChunkResult.min ∧
      ∀ r ∈ ([⟨0, [1, 2], 1, 2, false⟩, ⟨1, [0, 5], 0, 5, false⟩] : List ChunkResult),
        globalMinOf [⟨0, [1, 2], 1, 2, false⟩, ⟨1, [0, 5], 0, 5, false⟩] ≤ r.min) ∧
     (globalMaxOf [⟨0, [1, 2], 1, 2, false⟩, ⟨1, [0, 5], 0, 5, false⟩] ∈
        ([⟨0, [1, 2], 1, 2, false⟩, ⟨1, [0, 5], 0, 5, false⟩] : List ChunkResult).map
          ChunkResult.max ∧
      ∀ r ∈ ([⟨0, [1, 2], 1, 2, false⟩, ⟨1, [0, 5], 0, 5, false⟩] : List ChunkResult),
        r.max ≤ globalMaxOf [⟨0, [1, 2], 1, 2, false⟩, ⟨1, [0, 5], 0, 5, false⟩])) :=
  ⟨by decide, globalMin_globalMax_are_extrema _ (by decide)⟩

/-- C10. An empty chunk-result list merges to an empty buffer, and the
`?? 0` seeding makes both the global minimum and the global maximum 0
(never an infinity and never undefined). -/
theorem empty_load_merges_to_zero_range :
    mergedData [] = [] ∧ globalMinOf [] = 0 ∧ globalMaxOf [] = 0 ∧
    mergeStep [] = ([], 0, 0) :=
  ⟨rfl, rfl, rfl, rfl⟩

/-- Counterexample to C8 (claimed merge-size integrity check): a single chunk of
3 elements against `dataLength = 5`.  The merge step is a total function with no
error outcome: it simply produces the 3-element buffer (24 bytes, not 40), so no
merge-size-mismatch failure exists in the code. -/
theorem merge_size_mismatch_counterexample :
    totalLength [⟨0, [1, 2, 3], 1, 3, false⟩] ≠ 5 ∧
    mergeStep [⟨0, [1, 2, 3], 1, 3, false⟩] = ([1, 2, 3], 1, 3) ∧
    (mergedData [⟨0, [1, 2, 3], 1, 3, false⟩]).length * 8 ≠ 5 * 8 := by
  refine ⟨by decide, rfl, by decide⟩

/-- C8 amended. No integrity check is performed: when the sum of the chunk
element counts differs from `dataLength`, the merge still succeeds and the
merged buffer's byte length is 8 times that sum, which then differs from
`dataLength * 8`. -/
theorem merge_size_mismatch_unchecked (rs : List ChunkResult) (dl : Nat)
    (h : totalLength rs ≠ dl) :
    (mergedData rs).length = totalLength rs ∧ (mergedData rs).length * 8 ≠ dl * 8 := by
  refine ⟨(totalLength_eq_length_mergedData rs).symm, fun hc => h ?_⟩
  have : (mergedData rs).length = dl := by omega
  rw [totalLength_eq_length_mergedData, this]

/-- Witness for C8's amended theorem at the counterexample input. -/
theorem merge_size_mismatch_unchecked_witness :
    totalLength [⟨0, [1, 2, 3], 1, 3, false⟩] ≠ 5 ∧
    ((mergedData [⟨0, [1, 2, 3], 1, 3, false⟩]).length =
        totalLength [⟨0, [1, 2, 3], 1, 3, false⟩] ∧
      (mergedData [⟨0, [1, 2, 3], 1, 3, false⟩]).length * 8 ≠ 5 * 8) :=
  ⟨by decide, merge_size_mismatch_unchecked _ 5 (by decide)⟩

/-- Counterexample to C7 (claimed error on a zero-element 200 body): the worker
posts a `chunk` message with undefined min/max, not an `error` message. -/
theorem zero_length_chunk_counterexample :
    workerSuccessReply 3 0 0 [] = WorkerReply.chunkMsg 3 0 0 [] none none ∧
    (workerSuccessReply 3 0 0 []).isError = false :=
  ⟨rfl, rfl⟩

/-- C7 amended. On a 200 response whose body holds zero Float64 elements the
worker leaves `min` and `max` undefined but still posts a `chunk` message
carrying them; no error message is emitted. -/
theorem zero_length_chunk_posts_chunk_message (ci s len : Nat) :
    workerSuccessReply ci s len [] = WorkerReply.chunkMsg ci s len [] none none ∧
    (workerSuccessReply ci s len []).isError = false :=
  ⟨rfl, rfl⟩

/-- Counterexample to C5 (claimed termination of lane workers on error): with 2
spawned workers and a first chunk promise that rejects, `loadDataFromBackend`
rejects with that error but terminates 0 of the 2 workers, because the
`forEach(terminate)` sits after the `await Promise.all` and is skipped when the
await throws. -/
theorem error_path_skips_terminate_counterexample :
    loadBackendFinish 2 [Except.error (FetchError.httpError 500),
        Except.ok ⟨1, [7], 7, 7, false⟩] =
      (Except.error (FetchError.httpError 500), 2, 0) ∧ (0 : Nat) ≠ 2 :=
  ⟨rfl, by decide⟩

/-- Helper: `promiseAll` rejects with the first error among the outcomes. -/
theorem promiseAll_eq_error_of_firstError {ε α : Type} (ps : List (Except ε α)) (e : ε)
    (h : firstError ps = some e) : promiseAll ps = Except.error e := by
  induction ps with
  | nil => simp [firstError] at h
  | cons p rest ih =>
    cases p with
    | ok a =>
      have := ih (by simpa [firstError] using h)
      simp [promiseAll, this, Except.map]
    | error e' =>
      have : e' = e := by simpa [firstError] using h
      simp [promiseAll, this]

/-- C5 amended. If any chunk promise rejects, `loadDataFromBackend` rejects with
the first observed error; the spawned lane workers are NOT terminated on this
path (termination runs only after all chunk promises fulfil). -/
theorem loadBackend_first_error_no_terminate {ε : Type} (n : Nat)
    (ps : List (Except ε ChunkResult)) (e : ε) (h : firstError ps = some e) :
    loadBackendFinish n ps = (Except.error e, n, 0) := by
  simp [loadBackendFinish, promiseAll_eq_error_of_firstError ps e h]

/-- Witness for C5's amended theorem at the counterexample input. -/
theorem loadBackend_first_error_no_terminate_witness :
    firstError [Except.error (FetchError.httpError 500),
        Except.ok (⟨1, [7], 7, 7, false⟩ : ChunkResult)] =
      some (FetchError.httpError 500) ∧
    loadBackendFinish 2 [Except.error (FetchError.httpError 500),
        Except.ok (⟨1, [7], 7, 7, false⟩ : ChunkResult)] =
      (Except.error (FetchError.httpError 500), 2, 0) :=
  ⟨rfl, loadBackend_first_error_no_terminate 2 _ _ rfl⟩

/-- Helper: running the retry loop through `k` consecutive 202 responses (with
`rc + k` still within the retry budget) sleeps `baseDelay * 2 ^ (rc + j)` after
the j-th of them and continues with the retry counter advanced by `k`. -/
theorem fetchRetryLoop_replicate (ci : Nat) : ∀ (k rc : Nat) (tail : List HttpStatus)
    (ds : List Nat), rc + k ≤ maxRetries →
    fetchRetryLoop ci (List.replicate k HttpStatus.accepted202 ++ tail) rc ds =
      fetchRetryLoop ci tail (rc + k)
        (ds ++ (List.range k).map (fun j => baseDelay * 2 ^ (rc + j))) := by
  intro k
  induction k with
  | zero => intro rc tail ds _; simp
  | succ k ih =>
    intro rc tail ds h
    rw [List.replicate_succ, List.cons_append]
    show (if maxRetries ≤ rc then _ else fetchRetryLoop ci _ (rc + 1) _) = _
    rw [if_neg (by omega)]
    rw [ih (rc + 1) tail (ds ++ [baseDelay * 2 ^ rc]) (by omega)]
    have hc : rc + 1 + k = rc + (k + 1) := by omega
    rw [hc]
    have hdl : (List.range (k + 1)).map (fun j => baseDelay * 2 ^ (rc + j)) =
        baseDelay * 2 ^ rc :: (List.range k).map (fun j => baseDelay * 2 ^ (rc + 1 + j)) := by
      rw [List.range_succ_eq_map, List.map_cons, List.map_map]
      refine congrArg₂ List.cons (by norm_num) (List.map_congr_left ?_)
      intro a _
      have h2 : rc + Nat.succ a = rc + 1 + a := by omega
      simp [Function.comp, h2]
    rw [hdl]
    simp [List.append_assoc]

/-- C3. In a single-chunk request that receives HTTP 202 exactly `k` times
(`k ≤ 9`) before a 200, the worker sleeps `100 * 2 ^ j` milliseconds after the
j-th 202 (delays 100, 200, 400, ... ms) and then succeeds; and a request whose
retry counter has reached 10 when a further 202 arrives throws the
"chunk not ready after 10 retries" error instead of retrying again. -/
theorem retry_backoff_schedule (ci k : Nat) (hk : k ≤ 9) :
    fetchRetryLoop ci (List.replicate k HttpStatus.accepted202 ++ [HttpStatus.ok200]) 0 [] =
      some ((List.range k).map (fun j => 100 * 2 ^ j), Except.ok ()) ∧
    fetchRetryLoop ci (List.replicate 11 HttpStatus.accepted202) 0 [] =
      some ((List.range 10).map (fun j => 100 * 2 ^ j),
        Except.error (FetchError.notReadyAfterRetries ci 10)) := by
  constructor
  · rw [fetchRetryLoop_replicate ci k 0 [HttpStatus.ok200] []
      (by simp only [maxRetries]; omega)]
    simp [fetchRetryLoop, baseDelay]
  · have h11 : List.replicate 11 HttpStatus.accepted202 =
        List.replicate 10 HttpStatus.accepted202 ++ [HttpStatus.accepted202] := by
      decide
    rw [h11, fetchRetryLoop_replicate ci 10 0 [HttpStatus.accepted202] []
      (by simp [maxRetries])]
    simp [fetchRetryLoop, maxRetries, baseDelay]

/-- Witness for C3 at k = 3 (delays 100, 200, 400 ms). -/
theorem retry_backoff_schedule_witness :
    (3 : Nat) ≤ 9 ∧
    (fetchRetryLoop 7 (List.replicate 3 HttpStatus.accepted202 ++ [HttpStatus.ok200]) 0 [] =
        some ((List.range 3).map (fun j => 100 * 2 ^ j), Except.ok ()) ∧
      fetchRetryLoop 7 (List.replicate 11 HttpStatus.accepted202) 0 [] =
        some ((List.range 10).map (fun j => 100 * 2 ^ j),
          Except.error (FetchError.notReadyAfterRetries 7 10))) :=
  ⟨by norm_num, retry_backoff_schedule 7 3 (by norm_num)⟩

/-- Helper: a well-formed layout has strictly ascending chunk indexes, all at
least the starting index. -/
theorem layoutFrom_index_lt (ds : List ChunkDescr) : ∀ i pos dl : Nat,
    layoutFrom ds i pos dl = true →
    (∀ d ∈ ds, i ≤ d.index) ∧
      List.Pairwise (fun a b : ChunkDescr => a.index < b.index) ds := by
  induction ds with
  | nil => intro i pos dl _; simp
  | cons d rest ih =>
    intro i pos dl h
    simp only [layoutFrom, Bool.and_eq_true, beq_iff_eq, decide_eq_true_eq] at h
    obtain ⟨⟨⟨⟨hidx, _⟩, _⟩, _⟩, hrest⟩ := h
    obtain ⟨hge, hpw⟩ := ih (i + 1) d.stop dl hrest
    refine ⟨?_, ?_⟩
    · intro d' hd'
      rcases List.mem_cons.mp hd' with rfl | hd'
      · omega
      · have := hge d' hd'; omega
    · refine List.pairwise_cons.mpr ⟨?_, hpw⟩
      intro d' hd'
      have := hge d' hd'
      omega

/-- Helper: when every chunk carries exactly `stop - start` elements, the
concatenation of the chunk contents of a layout covering `[pos, dl)` has
exactly `dl - pos` elements. -/
theorem layout_flatten_length (contents : ChunkDescr → List Int) (ds : List ChunkDescr) :
    ∀ pos i dl : Nat, layoutFrom ds i pos dl = true →
    (∀ d ∈ ds, (contents d).length = d.stop - d.start) →
    pos + ((ds.map contents).flatten).length = dl := by
  induction ds with
  | nil =>
    intro pos i dl h _
    simp only [layoutFrom, beq_iff_eq] at h
    simp [h]
  | cons d rest ih =>
    intro pos i dl h hlen
    simp only [layoutFrom, Bool.and_eq_true, beq_iff_eq, decide_eq_true_eq] at h
    obtain ⟨⟨⟨⟨_, hstart⟩, hlt⟩, hle⟩, hrest⟩ := h
    have hrec := ih d.stop (i + 1) dl hrest (fun d' hd' => hlen d' (List.mem_cons_of_mem _ hd'))
    have hd := hlen d (List.mem_cons_self _ _)
    simp only [List.map_cons, List.flatten_cons, List.length_append]
    omega

/-- Helper: sorting a permutation of a list with strictly ascending
`chunkIndex`es by `chunkIndex` recovers that list exactly. -/
theorem sortByChunkIndex_eq_of_perm (rs cs : List ChunkResult) (hperm : rs.Perm cs)
    (hcslt : List.Pairwise (fun a b : ChunkResult => a.chunkIndex < b.chunkIndex) cs) :
    sortByChunkIndex rs = cs := by
  have hp : (sortByChunkIndex rs).Perm cs := (List.mergeSort_perm rs _).trans hperm
  have hle : List.Pairwise (fun a b : ChunkResult => a.chunkIndex ≤ b.chunkIndex)
      (sortByChunkIndex rs) := by
    have hs := @List.sorted_mergeSort ChunkResult
      (fun a b => a.chunkIndex ≤ b.chunkIndex)
      (by intro a b c h1 h2; simp only [decide_eq_true_eq] at h1 h2 ⊢; omega)
      (by intro a b; simp only [Bool.or_eq_true, decide_eq_true_eq]; omega)
      rs
    refine hs.imp ?_
    intro a b hab
    simpa using hab
  have hne : List.Pairwise (fun a b : ChunkResult => a.chunkIndex ≠ b.chunkIndex)
      (sortByChunkIndex rs) := by
    exact (List.Perm.pairwise_iff (fun {a b} h => Ne.symm h) hp).mpr
      (hcslt.imp fun h => Nat.ne_of_lt h)
  have hlt : List.Pairwise (fun a b : ChunkResult => a.chunkIndex < b.chunkIndex)
      (sortByChunkIndex rs) :=
    (hle.and hne).imp fun h => lt_of_le_of_ne h.1 h.2
  haveI : IsAntisymm ChunkResult (fun a b => a.chunkIndex < b.chunkIndex) :=
    ⟨fun a b h1 h2 => absurd (h1.trans h2) (lt_irrefl _)⟩
  exact List.eq_of_perm_of_sorted hp hlt hcslt

/-- C1. If each delivered chunk carries exactly `stop - start` elements (its
`contents`) and the chunk descriptors partition `[0, dataLength)` with
ascending indexes, then after the `chunkIndex` sort the merged buffer is the
concatenation of the chunk contents in ascending chunk-index order and its
byte length is `dataLength * 8`.  `cs` is the delivered results in index order
(arbitrary min/max and cache flags); `rs` is any arrival order of them. -/
theorem loadData_merge_reconstructs_field (ds : List ChunkDescr) (dataLength : Nat)
    (contents : ChunkDescr → List Int) (rs cs : List ChunkResult)
    (hlayout : isChunkLayout ds dataLength = true)
    (hlen : ∀ d ∈ ds, (contents d).length = d.stop - d.start)
    (hcs : cs.map (fun r => (r.chunkIndex, r.buffer)) = ds.map (fun d => (d.index, contents d)))
    (hperm : rs.Perm cs) :
    mergedData (sortByChunkIndex rs) = (ds.map contents).flatten ∧
    (mergedData (sortByChunkIndex rs)).length * 8 = dataLength * 8 := by
  have hidx : cs.map (fun r => r.chunkIndex) = ds.map (fun d => d.index) := by
    have h := congrArg (List.map Prod.fst) hcs
    simpa [List.map_map, Function.comp] using h
  have hbuf : cs.map (fun r => r.buffer) = ds.map contents := by
    have h := congrArg (List.map Prod.snd) hcs
    simpa [List.map_map, Function.comp] using h
  have hdslt := (layoutFrom_index_lt ds 0 0 dataLength hlayout).2
  have hcslt : List.Pairwise (fun a b : ChunkResult => a.chunkIndex < b.chunkIndex) cs := by
    have h1 : (ds.map (fun d => d.index)).Pairwise (· < ·) := List.pairwise_map.mpr hdslt
    have h2 : (cs.map (fun r => r.chunkIndex)).Pairwise (· < ·) := by rw [hidx]; exact h1
    exact List.pairwise_map.mp h2
  have hsort : sortByChunkIndex rs = cs := sortByChunkIndex_eq_of_perm rs cs hperm hcslt
  have hmerged : mergedData (sortByChunkIndex rs) = (ds.map contents).flatten := by
    rw [hsort, mergedData_eq_flatten, hbuf]
  have hl : layoutFrom ds 0 0 dataLength = true := hlayout
  have hlen2 := layout_flatten_length contents ds 0 0 dataLength hl hlen
  exact ⟨hmerged, by rw [hmerged]; omega⟩

/-- Witness for C1 at the concrete two-chunk load. -/
theorem loadData_merge_reconstructs_field_witness :
    isChunkLayout dsW 3 = true ∧
    (mergedData (sortByChunkIndex rsW) = (dsW.map contentsW).flatten ∧
      (mergedData (sortByChunkIndex rsW)).length * 8 = 3 * 8) :=
  ⟨by decide, loadData_merge_reconstructs_field dsW 3 contentsW rsW csW (by decide)
    (by decide) (by decide) (List.Perm.swap _ _ _)⟩

/-- Counterexample to C6 (lane = misses seen so far): with two chunks whose
first is cached and second missed, the code assigns the (single, 0-th) miss to
lane `1 % 2 = 1`, while the claim's formula assigns lane `0 % 2 = 0`. -/
theorem lane_assignment_counterexample :
    (assignWorkers [true, false]).assignments = [(1, 1)] ∧
    missesBasedAssignments [true, false] = [(1, 0)] ∧
    (assignWorkers [true, false]).assignments ≠ missesBasedAssignments [true, false] := by
  refine ⟨rfl, rfl, by decide⟩

/-- Helper: the assignment loop in closed form. -/
theorem assignLoop_assignments (awc : Nat) (cached : List Bool) : ∀ (i : Nat) (s : AssignState),
    (assignLoop awc cached i s).assignments = s.assignments ++ positionAssignFrom awc cached i := by
  induction cached with
  | nil => intro i s; simp [assignLoop, positionAssignFrom]
  | cons c rest ih =>
    intro i s
    cases c with
    | true => simp [assignLoop, positionAssignFrom, ih]
    | false => simp [assignLoop, positionAssignFrom, ih, List.append_assoc]

/-- C6 amended. Every chunk whose byte-cache lookup missed is assigned to fetch
lane (position of the chunk in the `chunks` array) mod
`min(THREAD_COUNT, chunks.length)` — the loop counter runs over all chunks,
cached ones included, so the lane is the chunk's position, not the count of
misses seen so far. -/
theorem lane_assignment_by_position (cached : List Bool) :
    (assignWorkers cached).assignments =
      positionAssignFrom (min THREAD_COUNT cached.length) cached 0 := by
  simpa using assignLoop_assignments (min THREAD_COUNT cached.length) cached 0 ⟨0, []⟩

/-- Helper: the minimum fold over a non-empty list is a member and a lower
bound. -/
theorem jsMinList_spec (l : List Int) (h : l ≠ []) :
    jsMinList l ∈ l ∧ ∀ x ∈ l, jsMinList l ≤ x := by
  rcases List.exists_cons_of_ne_nil h with ⟨t, ts, rfl⟩
  simp only [jsMinList]
  have key : ∀ (ts : List Int) (seed : Int),
      (ts.foldl min seed = seed ∨ ts.foldl min seed ∈ ts) ∧
      ts.foldl min seed ≤ seed ∧ ∀ x ∈ ts, ts.foldl min seed ≤ x := by
    intro ts
    induction ts with
    | nil => intro seed; simp
    | cons y rest ih =>
      intro seed
      simp only [List.foldl_cons]
      rcases ih (min seed y) with ⟨hmem, hle, hbound⟩
      refine ⟨?_, ?_, ?_⟩
      · rcases hmem with hs | hs
        · rcases min_choice seed y with hc | hc
          · left; rw [hs, hc]
          · right; rw [hs, hc]; exact List.mem_cons_self _ _
        · right; exact List.mem_cons_of_mem _ hs
      · exact le_trans hle (min_le_left _ _)
      · intro x hx
        rcases List.mem_cons.mp hx with rfl | hx
        · exact le_trans hle (min_le_right _ _)
        · exact hbound x hx
  rcases key ts t with ⟨hmem, hle, hbound⟩
  refine ⟨?_, ?_⟩
  · rcases hmem with hs | hs
    · rw [hs]; exact List.mem_cons_self _ _
    · exact List.mem_cons_of_mem _ hs
  · intro x hx
    rcases List.mem_cons.mp hx with rfl | hx
    · exact hle
    · exact hbound x hx

/-- Helper: the maximum fold over a non-empty list is a member and an upper
bound. -/
theorem jsMaxList_spec (l : List Int) (h : l ≠ []) :
    jsMaxList l ∈ l ∧ ∀ x ∈ l, x ≤ jsMaxList l := by
  rcases List.exists_cons_of_ne_nil h with ⟨t, ts, rfl⟩
  simp only [jsMaxList]
  have key : ∀ (ts : List Int) (seed : Int),
      (ts.foldl max seed = seed ∨ ts.foldl max seed ∈ ts) ∧
      seed ≤ ts.foldl max seed ∧ ∀ x ∈ ts, x ≤ ts.foldl max seed := by
    intro ts
    induction ts with
    | nil => intro seed; simp
    | cons y rest ih =>
      intro seed
      simp only [List.foldl_cons]
      rcases ih (max seed y) with ⟨hmem, hle, hbound⟩
      refine ⟨?_, ?_, ?_⟩
      · rcases hmem with hs | hs
        · rcases max_choice seed y with hc | hc
          · left; rw [hs, hc]
          · right; rw [hs, hc]; exact List.mem_cons_self _ _
        · right; exact List.mem_cons_of_mem _ hs
      · exact le_trans (le_max_left _ _) hle
      · intro x hx
        rcases List.mem_cons.mp hx with rfl | hx
        · exact le_trans (le_max_right _ _) hle
        · exact hbound x hx
  rcases key ts t with ⟨hmem, hle, hbound⟩
  refine ⟨?_, ?_⟩
  · rcases hmem with hs | hs
    · rw [hs]; exact List.mem_cons_self _ _
    · exact List.mem_cons_of_mem _ hs
  · intro x hx
    rcases List.mem_cons.mp hx with rfl | hx
    · exact hle
    · exact hbound x hx

/-- Helper: membership in `allTimes`. -/
theorem mem_allTimes (records : List PerfRecord) (t : Int) :
    t ∈ allTimes records ↔ ∃ r ∈ records, t = r.startTime ∨ t = r.endTime := by
  simp [allTimes, List.mem_flatMap]

/-- Helper: `allTimes` of a non-empty record list is non-empty. -/
theorem allTimes_ne_nil (records : List PerfRecord) (h : records ≠ []) :
    allTimes records ≠ [] := by
  rcases List.exists_cons_of_ne_nil h with ⟨r, rest, rfl⟩
  simp [allTimes]

/-- C9. Merging backend records into the local session concatenates the two
record lists (so every record of both sources is preserved, multiplicities
included), and recomputes the envelope so that the session start time is the
minimum of all record start times and the session end time is the maximum of
all record end times — provided the merged list is non-empty and every record
is well-formed (`startTime ≤ endTime`). -/
theorem session_merge_union_and_envelope (session : PerfSession)
    (backendRecords : List PerfRecord)
    (hne : session.records ++ backendRecords ≠ [])
    (hwf : ∀ r ∈ session.records ++ backendRecords, r.startTime ≤ r.endTime) :
    (mergeBackendRecords session backendRecords).records =
      session.records ++ backendRecords ∧
    ((mergeBackendRecords session backendRecords).sessionStartTime ∈
        (session.records ++ backendRecords).map PerfRecord.startTime ∧
      ∀ r ∈ session.records ++ backendRecords,
        (mergeBackendRecords session backendRecords).sessionStartTime ≤ r.startTime) ∧
    ((mergeBackendRecords session backendRecords).sessionEndTime ∈
        (session.records ++ backendRecords).map PerfRecord.endTime ∧
      ∀ r ∈ session.records ++ backendRecords,
        r.endTime ≤ (mergeBackendRecords session backendRecords).sessionEndTime) := by
  set L := session.records ++ backendRecords with hL
  have hrec : (mergeBackendRecords session backendRecords).records = L := rfl
  have hstart : (mergeBackendRecords session backendRecords).sessionStartTime =
      jsMinList (allTimes L) := rfl
  have hstop : (mergeBackendRecords session backendRecords).sessionEndTime =
      jsMaxList (allTimes L) := rfl
  have hat : allTimes L ≠ [] := allTimes_ne_nil L hne
  rcases jsMinList_spec (allTimes L) hat with ⟨hminmem, hminle⟩
  rcases jsMaxList_spec (allTimes L) hat with ⟨hmaxmem, hmaxle⟩
  refine ⟨hrec, ⟨?_, ?_⟩, ?_, ?_⟩
  · rw [hstart]
    rcases (mem_allTimes L _).mp hminmem with ⟨r, hr, hcase | hcase⟩
    · rw [hcase]; exact List.mem_map_of_mem _ hr
    · have h1 : jsMinList (allTimes L) ≤ r.startTime :=
        hminle _ ((mem_allTimes L _).mpr ⟨r, hr, Or.inl rfl⟩)
      have h2 : r.startTime ≤ jsMinList (allTimes L) := by
        rw [hcase]; exact hwf r hr
      have : jsMinList (allTimes L) = r.startTime := le_antisymm h1 h2
      rw [this]; exact List.mem_map_of_mem _ hr
  · intro r hr
    rw [hstart]
    exact hminle _ ((mem_allTimes L _).mpr ⟨r, hr, Or.inl rfl⟩)
  · rw [hstop]
    rcases (mem_allTimes L _).mp hmaxmem with ⟨r, hr, hcase | hcase⟩
    · have h1 : r.endTime ≤ jsMaxList (allTimes L) :=
        hmaxle _ ((mem_allTimes L _).mpr ⟨r, hr, Or.inr rfl⟩)
      have h2 : jsMaxList (allTimes L) ≤ r.endTime := by
        rw [hcase]; exact hwf r hr
      have : jsMaxList (allTimes L) = r.endTime := le_antisymm h2 h1
      rw [this]; exact List.mem_map_of_mem _ hr
    · rw [hcase]; exact List.mem_map_of_mem _ hr
  · intro r hr
    rw [hstop]
    exact hmaxle _ ((mem_allTimes L _).mpr ⟨r, hr, Or.inr rfl⟩)

/-- Witness for C9 at a concrete one-local/two-backend merge. -/
theorem session_merge_union_and_envelope_witness :
    (sessionW.records ++ backendRecordsW ≠ [] ∧
      ∀ r ∈ sessionW.records ++ backendRecordsW, r.startTime ≤ r.endTime) ∧
    ((mergeBackendRecords sessionW backendRecordsW).records =
        sessionW.records ++ backendRecordsW ∧
      ((mergeBackendRecords sessionW backendRecordsW).sessionStartTime ∈
          (sessionW.records ++ backendRecordsW).map PerfRecord.startTime ∧
        ∀ r ∈ sessionW.records ++ backendRecordsW,
          (mergeBackendRecords sessionW backendRecordsW).sessionStartTime ≤ r.startTime) ∧
      ((mergeBackendRecords sessionW backendRecordsW).sessionEndTime ∈
          (sessionW.records ++ backendRecordsW).map PerfRecord.endTime ∧
        ∀ r ∈ sessionW.records ++ backendRecordsW,
          r.endTime ≤ (mergeBackendRecords sessionW backendRecordsW).sessionEndTime)) :=
  ⟨⟨by decide, by decide⟩,
    session_merge_union_and_envelope sessionW backendRecordsW (by decide) (by decide)⟩

/-- Helper: the idle writeback never touches the shape cache. -/
theorem applyWriteback_shapeCache (file : String) (cs : Nat)
    (wb : List (Nat × CachedChunk)) : ∀ st : ClientState,
    (applyWriteback st file cs wb).shapeCache = st.shapeCache := by
  induction wb with
  | nil => intro st; rfl
  | cons p rest ih =>
    intro st
    exact ih _

/-- Helper: a byte-cache entry that was present before the writeback, or whose
chunk index is written back, is present afterwards. -/
theorem applyWriteback_isSome (file : String) (cs : Nat)
    (wb : List (Nat × CachedChunk)) : ∀ (st : ClientState) (i : Nat),
    ((st.byteCache file cs i).isSome = true ∨ i ∈ wb.map Prod.fst) →
    ((applyWriteback st file cs wb).byteCache file cs i).isSome = true := by
  induction wb with
  | nil =>
    intro st i h
    rcases h with h | h
    · exact h
    · simp at h
  | cons p rest ih =>
    intro st i h
    show ((applyWriteback _ file cs rest).byteCache file cs i).isSome = true
    by_cases hi : i = p.1
    · refine ih _ i (Or.inl ?_)
      simp [hi]
    · refine ih _ i ?_
      rcases h with h | h
      · refine Or.inl ?_
        simpa [hi] using h
      · rw [List.map_cons] at h
        rcases List.mem_cons.mp h with h' | h'
        · exact absurd h' hi
        · exact Or.inr h'

/-- Helper: when `promiseAll` fulfils, every listed outcome is a fulfilment and
its value is among the results. -/
theorem promiseAll_ok_mem {ε α : Type} (ps : List (Except ε α)) :
    ∀ rs : List α, promiseAll ps = Except.ok rs →
    ∀ p ∈ ps, ∃ a, p = Except.ok a ∧ a ∈ rs := by
  induction ps with
  | nil => intro rs _ p hp; simp at hp
  | cons q rest ih =>
    intro rs h p hp
    cases q with
    | error e => simp [promiseAll] at h
    | ok a =>
      simp only [promiseAll] at h
      cases hrest : promiseAll rest with
      | error e => rw [hrest] at h; simp [Except.map] at h
      | ok rs' =>
        rw [hrest] at h
        simp only [Except.map] at h
        have hrs : rs = a :: rs' := by
          cases h; rfl
        rcases List.mem_cons.mp hp with rfl | hp'
        · exact ⟨a, rfl, by rw [hrs]; exact List.mem_cons_self _ _⟩
        · rcases ih rs' hrest p hp' with ⟨b, hb, hbmem⟩
          exact ⟨b, hb, by rw [hrs]; exact List.mem_cons_of_mem _ hbmem⟩

/-- Helper: the fan-out loop only appends to the promise list. -/
theorem backendFetchLoop_promises_mono (srv : Server) (st : ClientState) (file : String)
    (cs : Nat) (tid : String) (awc : Nat) (ds : List ChunkDescr) :
    ∀ (i : Nat) (acc : FetchAcc) (p : Except ChunkFault ChunkResult), p ∈ acc.promises →
    p ∈ (backendFetchLoop srv st file cs tid awc ds i acc).promises := by
  induction ds with
  | nil => intro i acc p hp; exact hp
  | cons d rest ih =>
    intro i acc p hp
    show p ∈ (backendFetchLoop srv st file cs tid awc (d :: rest) i acc).promises
    cases hbc : st.byteCache file cs d.index with
    | some c =>
      simp only [backendFetchLoop, hbc]
      exact ih _ _ p (List.mem_append_left _ hp)
    | none =>
      simp only [backendFetchLoop, hbc]
      by_cases hlane : i % awc <
          (if acc.loaders ≤ i % awc then acc.loaders + 1 else acc.loaders)
      · rw [if_pos hlane]
        cases hcd : srv.chunkData file cs d.index with
        | ok bmm => exact ih _ _ p (List.mem_append_left _ hp)
        | error e => exact ih _ _ p (List.mem_append_left _ hp)
      · rw [if_neg hlane]
        exact ih _ _ p (List.mem_append_left _ hp)

/-- Helper: every byte-cache miss among the chunks either contributes a rejected
promise or a fulfilled network result carrying its chunk index. -/
theorem backendFetchLoop_miss_covered (srv : Server) (st : ClientState) (file : String)
    (cs : Nat) (tid : String) (awc : Nat) (ds : List ChunkDescr) :
    ∀ (i : Nat) (acc : FetchAcc) (d : ChunkDescr), d ∈ ds →
    st.byteCache file cs d.index = none →
    (∃ flt, Except.error flt ∈ (backendFetchLoop srv st file cs tid awc ds i acc).promises) ∨
    (∃ r : ChunkResult,
      Except.ok r ∈ (backendFetchLoop srv st file cs tid awc ds i acc).promises ∧
      r.chunkIndex = d.index ∧ r.fromCache = false) := by
  induction ds with
  | nil => intro i acc d hd; simp at hd
  | cons d0 rest ih =>
    intro i acc d hd hmiss
    rcases List.mem_cons.mp hd with rfl | hd'
    · -- the head chunk itself is a miss
      simp only [backendFetchLoop, hmiss]
      by_cases hlane : i % awc <
          (if acc.loaders ≤ i % awc then acc.loaders + 1 else acc.loaders)
      · rw [if_pos hlane]
        cases hcd : srv.chunkData file cs d.index with
        | ok bmm =>
          refine Or.inr ⟨⟨d.index, bmm.1, bmm.2.1, bmm.2.2, false⟩, ?_, rfl, rfl⟩
          exact backendFetchLoop_promises_mono srv st file cs tid awc rest _ _ _
            (List.mem_append_right _ (List.mem_singleton.mpr rfl))
        | error e =>
          refine Or.inl ⟨ChunkFault.workerError d.index e, ?_⟩
          exact backendFetchLoop_promises_mono srv st file cs tid awc rest _ _ _
            (List.mem_append_right _ (List.mem_singleton.mpr rfl))
      · rw [if_neg hlane]
        refine Or.inl ⟨ChunkFault.undefinedWorker i (i % awc), ?_⟩
        exact backendFetchLoop_promises_mono srv st file cs tid awc rest _ _ _
          (List.mem_append_right _ (List.mem_singleton.mpr rfl))
    · -- the miss is further down: step once and use the induction hypothesis
      cases hbc : st.byteCache file cs d0.index with
      | some c =>
        simp only [backendFetchLoop, hbc]
        exact ih _ _ d hd' hmiss
      | none =>
        simp only [backendFetchLoop, hbc]
        by_cases hlane : i % awc <
            (if acc.loaders ≤ i % awc then acc.loaders + 1 else acc.loaders)
        · rw [if_pos hlane]
          cases hcd : srv.chunkData file cs d0.index with
          | ok bmm => exact ih _ _ d hd' hmiss
          | error e => exact ih _ _ d hd' hmiss
        · rw [if_neg hlane]
          exact ih _ _ d hd' hmiss

/-- Helper: when every chunk is cached, the cache load fulfils. -/
theorem loadChunksFromCacheM_ok_of_check (st : ClientState) (file : String) (cs : Nat)
    (ds : List ChunkDescr) (h : checkAllChunksCached st file cs ds = true) :
    ∃ rs, loadChunksFromCacheM st file cs ds = Except.ok rs := by
  induction ds with
  | nil => exact ⟨[], rfl⟩
  | cons d rest ih =>
    simp only [checkAllChunksCached, List.all_cons, Bool.and_eq_true] at h
    rcases ih (by simpa [checkAllChunksCached] using h.2) with ⟨rs, hrs⟩
    rcases Option.isSome_iff_exists.mp h.1 with ⟨c, hc⟩
    refine ⟨⟨d.index, c.buffer, c.min, c.max, true⟩ :: rs, ?_⟩
    simp [loadChunksFromCacheM, hc, hrs, Except.map]

/-- Helper: every result loaded from the cache is flagged `fromCache`. -/
theorem loadChunksFromCacheM_fromCache (st : ClientState) (file : String) (cs : Nat)
    (ds : List ChunkDescr) : ∀ rs, loadChunksFromCacheM st file cs ds = Except.ok rs →
    ∀ r ∈ rs, r.fromCache = true := by
  induction ds with
  | nil =>
    intro rs h r hr
    simp only [loadChunksFromCacheM] at h
    cases h
    simp at hr
  | cons d rest ih =>
    intro rs h r hr
    simp only [loadChunksFromCacheM] at h
    cases hc : st.byteCache file cs d.index with
    | none => rw [hc] at h; cases h
    | some c =>
      rw [hc] at h
      cases hrest : loadChunksFromCacheM st file cs rest with
      | error e => rw [hrest] at h; simp [Except.map] at h
      | ok rs' =>
        rw [hrest] at h
        simp only [Except.map] at h
        have hrs : rs = ⟨d.index, c.buffer, c.min, c.max, true⟩ :: rs' := by
          cases h; rfl
        rw [hrs] at hr
        rcases List.mem_cons.mp hr with rfl | hr'
        · rfl
        · exact ih rs' hrest r hr'

/-- Helper: a load whose results all came from the cache schedules no
writeback. -/
theorem finishLoad_writeback_nil (rs : List ChunkResult) (shape : Nat × Nat × Nat)
    (dl : Nat) (tid : Option String) (ac : Bool) (ev : List NetEvent) (st : ClientState)
    (h : ∀ r ∈ rs, r.fromCache = true) :
    (finishLoad rs shape dl tid ac ev st).writeback = [] := by
  have hmem : ∀ r ∈ sortByChunkIndex rs, r.fromCache = true := by
    intro r hr
    exact h r ((List.mergeSort_perm rs _).mem_iff.mp hr)
  simp only [finishLoad]
  rw [List.filter_eq_nil_iff.mpr ?_]
  · rfl
  · intro r hr
    simp [hmem r hr]

/-- Helper: `finishLoad` keeps the passed state. -/
theorem finishLoad_finalState (rs : List ChunkResult) (sh : Nat × Nat × Nat) (dl : Nat)
    (tid : Option String) (ac : Bool) (ev : List NetEvent) (st : ClientState) :
    (finishLoad rs sh dl tid ac ev st).finalState = st := rfl

/-- Helper: `finishLoad` keeps the passed events. -/
theorem finishLoad_events (rs : List ChunkResult) (sh : Nat × Nat × Nat) (dl : Nat)
    (tid : Option String) (ac : Bool) (ev : List NetEvent) (st : ClientState) :
    (finishLoad rs sh dl tid ac ev st).events = ev := rfl

/-- Helper: `finishLoad` keeps the passed cache flag. -/
theorem finishLoad_allFromCache (rs : List ChunkResult) (sh : Nat × Nat × Nat) (dl : Nat)
    (tid : Option String) (ac : Bool) (ev : List NetEvent) (st : ClientState) :
    (finishLoad rs sh dl tid ac ev st).allFromCache = ac := rfl

/-- Helper: the writeback scheduled by `finishLoad` in closed form. -/
theorem finishLoad_writeback (rs : List ChunkResult) (sh : Nat × Nat × Nat) (dl : Nat)
    (tid : Option String) (ac : Bool) (ev : List NetEvent) (st : ClientState) :
    (finishLoad rs sh dl tid ac ev st).writeback =
      ((sortByChunkIndex rs).filter (fun r => !r.fromCache)).map
        (fun r => (r.chunkIndex, (⟨r.buffer, r.min, r.max, 0⟩ : CachedChunk))) := rfl

/-- Helper: `loadData` on a shape-cache hit with a full byte cache is the
cache-only path. -/
theorem loadDataM_eq_cached (srv : Server) (st : ClientState) (file : String) (cs : Nat)
    (l0 : ShapeLayout) (hshape : st.shapeCache file cs = some l0)
    (hchk : checkAllChunksCached st file cs l0.chunks = true) :
    loadDataM srv st file cs = (loadChunksFromCacheM st file cs l0.chunks).map
      (fun rs => finishLoad rs l0.shape l0.dataLength none true [] st) := by
  simp [loadDataM, hshape, hchk]

/-- Helper: `loadData` on a shape-cache miss is the network path. -/
theorem loadDataM_eq_backend_of_none (srv : Server) (st : ClientState) (file : String)
    (cs : Nat) (hshape : st.shapeCache file cs = none) :
    loadDataM srv st file cs = loadBackendPath srv st file cs := by
  simp [loadDataM, hshape]

/-- Helper: `loadData` on a shape-cache hit with an incomplete byte cache is the
network path. -/
theorem loadDataM_eq_backend_of_incomplete (srv : Server) (st : ClientState) (file : String)
    (cs : Nat) (l0 : ShapeLayout) (hshape : st.shapeCache file cs = some l0)
    (hchk : ¬ checkAllChunksCached st file cs l0.chunks = true) :
    loadDataM srv st file cs = loadBackendPath srv st file cs := by
  simp [loadDataM, hshape, hchk]

/-- Helper: after a fulfilled network-path load and its idle writeback, a second
`loadData` takes the cache-only path: no network event and `allFromCache`. -/
theorem loadBackendPath_then_cached (srv : Server) (st : ClientState) (file : String)
    (cs : Nat) (o1 : LoadOutcome) (h1 : loadBackendPath srv st file cs = Except.ok o1) :
    ∃ o2, loadDataM srv (applyWriteback o1.finalState file cs o1.writeback) file cs =
        Except.ok o2 ∧ o2.events = [] ∧ o2.allFromCache = true := by
  simp only [loadBackendPath] at h1
  set l := srv.layout file cs with hldef
  set tid := srv.taskId file cs with htiddef
  set acc := backendFetchLoop srv st file cs tid (min THREAD_COUNT l.chunks.length)
    l.chunks 0 ⟨0, [], []⟩ with haccdef
  set st1 := saveShapeToCacheM st file cs l with hst1def
  cases hpa : promiseAll acc.promises with
  | error f =>
    rw [hpa] at h1
    simp at h1
  | ok rs =>
    rw [hpa] at h1
    simp only [] at h1
    have ho1 : finishLoad rs l.shape l.dataLength (some tid) false
        (NetEvent.preprocessPost file cs :: acc.events) st1 = o1 := by
      cases h1
      rfl
    have hwb : o1.writeback = ((sortByChunkIndex rs).filter (fun r => !r.fromCache)).map
        (fun r => (r.chunkIndex, (⟨r.buffer, r.min, r.max, 0⟩ : CachedChunk))) := by
      rw [← ho1, finishLoad_writeback]
    have hfs : o1.finalState = st1 := by rw [← ho1, finishLoad_finalState]
    have hshape2 : (applyWriteback o1.finalState file cs o1.writeback).shapeCache file cs =
        some l := by
      rw [applyWriteback_shapeCache, hfs, hst1def]
      simp [saveShapeToCacheM]
    have hchk2 : checkAllChunksCached (applyWriteback o1.finalState file cs o1.writeback)
        file cs l.chunks = true := by
      unfold checkAllChunksCached
      rw [List.all_eq_true]
      intro d hd
      show ((applyWriteback o1.finalState file cs o1.writeback).byteCache
        file cs d.index).isSome = true
      cases hbc : st.byteCache file cs d.index with
      | some c =>
        apply applyWriteback_isSome
        left
        rw [hfs, hst1def]
        show ((saveShapeToCacheM st file cs l).byteCache file cs d.index).isSome = true
        simp [saveShapeToCacheM, hbc]
      | none =>
        apply applyWriteback_isSome
        right
        rw [hwb]
        rcases backendFetchLoop_miss_covered srv st file cs tid
            (min THREAD_COUNT l.chunks.length) l.chunks 0 ⟨0, [], []⟩ d hd hbc with
          ⟨flt, hflt⟩ | ⟨r, hr, hidx, hfcr⟩
        · rw [← haccdef] at hflt
          rcases promiseAll_ok_mem acc.promises rs hpa _ hflt with ⟨a, ha, _⟩
          exact absurd ha (by simp)
        · rw [← haccdef] at hr
          rcases promiseAll_ok_mem acc.promises rs hpa _ hr with ⟨a, ha, hamem⟩
          injection ha with hra
          subst hra
          have hsorted : r ∈ sortByChunkIndex rs := by
            unfold sortByChunkIndex
            exact (List.mergeSort_perm rs _).mem_iff.mpr hamem
          have hfilter : r ∈ (sortByChunkIndex rs).filter (fun x => !x.fromCache) :=
            List.mem_filter.mpr ⟨hsorted, by simp [hfcr]⟩
          rw [List.map_map]
          refine List.mem_map.mpr ⟨r, hfilter, ?_⟩
          simp [Function.comp, hidx]
    rcases loadChunksFromCacheM_ok_of_check _ file cs l.chunks hchk2 with ⟨rs2, hrs2⟩
    refine ⟨finishLoad rs2 l.shape l.dataLength none true []
      (applyWriteback o1.finalState file cs o1.writeback), ?_, rfl, rfl⟩
    rw [loadDataM_eq_cached srv _ file cs l hshape2 hchk2, hrs2]
    rfl

/-- C4. For two sequential `loadData(file, chunkSize)` calls where the first
fulfils and its idle writeback has run, with no intervening eviction, the second
call issues no network event at all (no preprocess POST and no chunk GET) and
resolves with `allFromCache = true`: the shape cache plus an all-hit byte cache
short-circuit the network. -/
theorem loadData_second_call_short_circuit (srv : Server) (st : ClientState)
    (file : String) (cs : Nat) (o1 : LoadOutcome)
    (h1 : loadDataM srv st file cs = Except.ok o1) :
    ∃ o2, loadDataM srv (applyWriteback o1.finalState file cs o1.writeback) file cs =
        Except.ok o2 ∧ o2.events = [] ∧ o2.allFromCache = true := by
  cases hshape : st.shapeCache file cs with
  | none =>
    rw [loadDataM_eq_backend_of_none srv st file cs hshape] at h1
    exact loadBackendPath_then_cached srv st file cs o1 h1
  | some l0 =>
    by_cases hchk : checkAllChunksCached st file cs l0.chunks = true
    · rw [loadDataM_eq_cached srv st file cs l0 hshape hchk] at h1
      cases hlc : loadChunksFromCacheM st file cs l0.chunks with
      | error e => rw [hlc] at h1; simp [Except.map] at h1
      | ok rs =>
        rw [hlc] at h1
        simp only [Except.map] at h1
        injection h1 with ho1
        have hfc := loadChunksFromCacheM_fromCache st file cs l0.chunks rs hlc
        have hwb : o1.writeback = [] := by
          rw [← ho1]; exact finishLoad_writeback_nil rs _ _ _ _ _ _ hfc
        have hfs : o1.finalState = st := by rw [← ho1, finishLoad_finalState]
        have hev : o1.events = [] := by rw [← ho1, finishLoad_events]
        have hac : o1.allFromCache = true := by rw [← ho1, finishLoad_allFromCache]
        refine ⟨o1, ?_, hev, hac⟩
        have hstate : applyWriteback o1.finalState file cs o1.writeback = st := by
          rw [hwb, hfs]; rfl
        rw [hstate, loadDataM_eq_cached srv st file cs l0 hshape hchk, hlc]
        simp only [Except.map]
        rw [ho1]
    · rw [loadDataM_eq_backend_of_incomplete srv st file cs l0 hshape hchk] at h1
      exact loadBackendPath_then_cached srv st file cs o1 h1

/-- Witness for C4: first call from empty caches, then the written-back state. -/
theorem loadData_second_call_short_circuit_witness :
    loadDataM srvW stW "f" 4 = Except.ok o1W ∧
    (∃ o2, loadDataM srvW (applyWriteback o1W.finalState "f" 4 o1W.writeback) "f" 4 =
        Except.ok o2 ∧ o2.events = [] ∧ o2.allFromCache = true) :=
  ⟨rfl, loadData_second_call_short_circuit srvW stW "f" 4 o1W rfl⟩
